import Mathlib

/-!
Shallow embedding of the react-concurrent-store core: the `Store` rebase
protocol (`dispatch` / `handleUpdate`), the `StoreManager` refcount
bookkeeping, the `Emitter` publish/subscribe primitive, and the reader
mount/fixup protocol of `useStoreSelector`.  JS object identities (stores,
selectors, listener wrappers) are modelled as natural-number ids; the
ambient "is a React transition active" flag is threaded as an explicit
boolean parameter; a notification is recorded as the store snapshot seen by
listeners together with whether it was delivered inside a transition.
-/

namespace RCStore

/-- Snapshot of the two state fields of a `Store`: `state` is the head
(possibly an unresolved transition projection), `committedState` is the
value all mounted readers currently agree on. -/
structure StoreSt (S : Type) where
  state : S
  committedState : S
  deriving Repr, DecidableEq

/-- Result of one `dispatch`/`handleUpdate` call: the final store fields,
the list of notifications delivered (snapshot seen by listeners, paired
with whether the notification ran inside a transition), and whether the
call opened a new transition via `startTransition`. -/
structure DispatchResult (S : Type) where
  store : StoreSt S
  notifies : List (StoreSt S × Bool)
  openedTransition : Bool
  deriving Repr, DecidableEq

/-- Body of `Store.handleUpdate` (Store.ts) and `Store.dispatch`
(experimental module), after the head has been refreshed: `sourceState` is
`source.getState()` for the external-source variant and
`reducer(state, action)` for the internal variant.  The JS `===`
no-pending-transitions test on the pre-update fields becomes decidable
equality. -/
def handleUpdateCore {S A : Type} [DecidableEq S] (reducer : S → A → S)
    (sourceState : S) (action : A) (transitionActive : Bool)
    (st : StoreSt S) : DispatchResult S :=
  let noPendingTransitions : Bool := decide (st.committedState = st.state)
  let st1 : StoreSt S := { st with state := sourceState }
  if transitionActive then
    -- Transition update: just notify all readers of the new state.
    { store := st1, notifies := [(st1, true)], openedTransition := false }
  else if noPendingTransitions then
    -- Sync update with no pending transition: proactively mark the new
    -- state as committed.
    let st2 : StoreSt S := { st1 with committedState := st1.state }
    { store := st2, notifies := [(st2, false)], openedTransition := false }
  else
    -- Sync update while a transition update is pending: rebase.
    let newState := st1.state
    let newCommitted := reducer st.committedState action
    let st2 : StoreSt S := { state := newCommitted, committedState := newCommitted }
    let st3 : StoreSt S := { state := newState, committedState := newCommitted }
    { store := st3
      notifies := [(st2, false), (st3, true)]
      openedTransition := true }

/-- The experimental `Store.dispatch`: the store owns its reducer, so the
head refresh at the top of the body is `state := reducer(state, action)`. -/
def dispatch {S A : Type} [DecidableEq S] (reducer : S → A → S) (action : A)
    (transitionActive : Bool) (st : StoreSt S) : DispatchResult S :=
  handleUpdateCore reducer (reducer st.state action) action transitionActive st

/-- The `Store.commit` method: only the committed field is written. -/
def commitStore {S : Type} (st : StoreSt S) (s : S) : StoreSt S :=
  { st with committedState := s }

/-- Effect on a store of the host resolving the pending transition: the
`CommitTracker` snapshots `store.getState()` at notify time and commits
that snapshot in its layout effect, so the head becomes committed. -/
def resolveTransition {S : Type} (st : StoreSt S) : StoreSt S :=
  commitStore st st.state

/-- Chronological event fed to a store: an action dispatched synchronously
(immediate), an action dispatched while a transition is active (deferred),
or the host resolving the pending transition. -/
inductive StoreEvent (A : Type) where
  | immediate (a : A)
  | deferred (a : A)
  | resolve
  deriving Repr, DecidableEq

/-- Run a store through a chronological list of events. -/
def runStore {S A : Type} [DecidableEq S] (reducer : S → A → S) :
    StoreSt S → List (StoreEvent A) → StoreSt S
  | st, [] => st
  | st, StoreEvent.immediate a :: rest =>
      runStore reducer (dispatch reducer a false st).store rest
  | st, StoreEvent.deferred a :: rest =>
      runStore reducer (dispatch reducer a true st).store rest
  | st, StoreEvent.resolve :: rest =>
      runStore reducer (resolveTransition st) rest

/-- Actions of the reference-counting worked example P2/P3 of the spec. -/
inductive CounterAction where
  | double
  | increment
  deriving Repr, DecidableEq

/-- Reducer of the worked example: `DOUBLE → s*2`, `INCREMENT → s+1`. -/
def counterReducer (s : Nat) : CounterAction → Nat
  | CounterAction.double => s * 2
  | CounterAction.increment => s + 1

/-- Head-state formula asserted by the spec sentence "`headState` equals
the same fold plus that unresolved action appended last": the fold of the
immediate actions with the unresolved deferred action applied after them.
Stated from the spec words, to be compared with the code's behaviour. -/
def specHeadAppendLast {S A : Type} (reducer : S → A → S) (c0 : S) (d : A)
    (as : List A) : S :=
  reducer (as.foldl reducer c0) d

/-- Reader-binding state at mount: the value rendered initially, read from
the head state in the `useState` initializer of `useStoreSelector`. -/
def initialReaderValue {S T : Type} (st : StoreSt S) (selector : S → T) : T :=
  selector st.state

/-- Body of the `useLayoutEffect` of `useStoreSelector` at mount: `shown`
is the value currently rendered, `st` the store at layout-effect time.
Returns the value visible at paint (after the synchronous fixup
`setState(mountCommittedState)` when the shown value differs from the
committed-derived one) together with the head-derived update scheduled
inside `startTransition` when head- and committed-derived values differ. -/
def mountFixup {S T : Type} [DecidableEq T] (shown : T) (st : StoreSt S)
    (selector : S → T) : T × Option T :=
  let mountState := selector st.state
  let mountCommittedState := selector st.committedState
  (if shown = mountCommittedState then shown else mountCommittedState,
   if mountState = mountCommittedState then none else some mountState)

/-- Error message thrown by `useStoreSelector` on a dynamic store. -/
def dynamicStoreMessage : String :=
  "useStoreSelector does not currently support dynamic stores"

/-- Error message thrown by `useStoreSelector` on a dynamic selector. -/
def dynamicSelectorMessage : String :=
  "useStoreSelector does not currently support dynamic selectors"

/-- Identity guard at the top of `useStoreSelector`: the store and selector
passed on a re-render are compared by reference identity (modelled as Nat
ids) against the ones captured in refs at mount; a mismatch throws before
anything is read. -/
def useStoreSelectorGuard (mountedStore passedStore mountedSelector
    passedSelector : Nat) : Except String Unit :=
  if passedStore ≠ mountedStore then Except.error dynamicStoreMessage
  else if passedSelector ≠ mountedSelector then
    Except.error dynamicSelectorMessage
  else Except.ok ()

/-! ## StoreManager

The manager's `_storeRefCounts` map (a JS `Map` keyed by store object
identity) is modelled as a function from store ids to `Option Int`: `none`
means no entry is tracked for that store. -/

/-- Refcount map of a `StoreManager`. -/
def MgrSt : Type := Nat → Option Int

/-- Manager state of a freshly constructed `StoreManager`. -/
def emptyMgr : MgrSt := fun _ => none

/-- Whether the manager tracks an entry for store `s`. -/
def hasEntry (m : MgrSt) (s : Nat) : Bool := (m s).isSome

/-- Refcount of store `s`, zero when untracked. -/
def countOf (m : MgrSt) (s : Nat) : Int := (m s).getD 0

/-- The `StoreManager.addStore` method: on first reference create an entry
with count 1 (and subscribe), otherwise increment the count. -/
def addStore (m : MgrSt) (s : Nat) : MgrSt :=
  match m s with
  | none => fun t => if t = s then some 1 else m t
  | some c => fun t => if t = s then some (c + 1) else m t

/-- Error message of the refcount-underflow check in `removeStore`. -/
def imbalanceMessage : String :=
  "Imblance in concurrent-safe store reference counting. This is a bug in react-use-store, please report it."

/-- The `StoreManager.removeStore` method with its exceptional outcome
explicit: on an untracked store it throws (returning the map untouched,
since the `throw` precedes any mutation); otherwise it only decrements the
count, never deleting the entry. -/
def removeStoreEx (m : MgrSt) (s : Nat) : MgrSt × Option String :=
  match m s with
  | none => (m, some imbalanceMessage)
  | some c => ((fun t => if t = s then some (c - 1) else m t), none)

/-- The `removeStore` method as a fallible step (`none` = the call threw). -/
def removeStore (m : MgrSt) (s : Nat) : Option MgrSt :=
  match removeStoreEx m s with
  | (_, some _) => none
  | (m1, none) => some m1

/-- The `StoreManager.sweep` method: drop (and unsubscribe) every entry
whose count is below 1. -/
def sweepMgr (m : MgrSt) : MgrSt := fun t =>
  match m t with
  | some c => if 1 ≤ c then some c else none
  | none => none

/-- Refcount effect of `StoreManager.commitAllStates`: the `store.commit`
calls do not touch the refcount map, then `sweep()` runs. -/
def commitAllStates (m : MgrSt) : MgrSt := sweepMgr m

/-- Calls a reader or the commit tracker can make on the manager. -/
inductive MgrOp where
  | add (s : Nat)
  | remove (s : Nat)
  | sweepCall
  | commitAll
  deriving Repr, DecidableEq

/-- One manager call; `none` means the call threw. -/
def stepMgr (m : MgrSt) : MgrOp → Option MgrSt
  | MgrOp.add s => some (addStore m s)
  | MgrOp.remove s => removeStore m s
  | MgrOp.sweepCall => some (sweepMgr m)
  | MgrOp.commitAll => some (commitAllStates m)

/-- Run a list of manager calls; `none` as soon as one throws. -/
def runMgr (m : MgrSt) : List MgrOp → Option MgrSt
  | [] => some m
  | op :: rest =>
      match stepMgr m op with
      | none => none
      | some m1 => runMgr m1 rest

/-- Whether an op is an `addStore` of store `s`. -/
def isAddOf (s : Nat) : MgrOp → Bool
  | MgrOp.add t => t == s
  | _ => false

/-- Whether an op is a `removeStore` of store `s`. -/
def isRemoveOf (s : Nat) : MgrOp → Bool
  | MgrOp.remove t => t == s
  | _ => false

/-- Number of `addStore s` calls in `ops`. -/
def countAdds (ops : List MgrOp) (s : Nat) : Nat := ops.countP (isAddOf s)

/-- Number of `removeStore s` calls in `ops`. -/
def countRemoves (ops : List MgrOp) (s : Nat) : Nat :=
  ops.countP (isRemoveOf s)

/-- A call history is balanced when, at every prefix, no store has seen
more `removeStore` than `addStore` calls (every unsubscribe is paired with
an earlier subscribe). -/
def Balanced (ops : List MgrOp) : Prop :=
  ∀ n s, countRemoves (ops.take n) s ≤ countAdds (ops.take n) s

/-- Condition for store `s` to survive one manager call from state `m`:
a sweep (directly or at the end of `commitAllStates`) must find its
refcount at 1 or more; other calls never delete entries. -/
def sweepGuard (op : MgrOp) (m : MgrSt) (s : Nat) : Prop :=
  match op with
  | MgrOp.sweepCall => 1 ≤ countOf m s
  | MgrOp.commitAll => 1 ≤ countOf m s
  | _ => True

/-- Store `s` is never removed by a sweep while running `ops` from `m`. -/
def survivesSweeps : MgrSt → List MgrOp → Nat → Prop
  | _, [], _ => True
  | m, op :: rest, s =>
      sweepGuard op m s ∧
        ∀ m1, stepMgr m op = some m1 → survivesSweeps m1 rest s

/-- Some reader has mounted store `s` during `ops` (an `addStore s` call
occurred) and the entry created or refreshed by that mount has not been
removed by any later sweep. -/
def mountedNotSwept : MgrSt → List MgrOp → Nat → Prop
  | _, [], _ => False
  | m, op :: rest, s =>
      ∃ m1, stepMgr m op = some m1 ∧
        ((op = MgrOp.add s ∧ survivesSweeps m1 rest s) ∨
          mountedNotSwept m1 rest s)

/-- Bookkeeping invariant tying a manager state to its call history: a
tracked refcount is the number of `addStore` calls minus the number of
`removeStore` calls for that store, and for an untracked store the two
numbers cancel. -/
def MgrCounts (ops : List MgrOp) (m : MgrSt) : Prop :=
  ∀ s,
    (∀ c, m s = some c →
      c = (countAdds ops s : Int) - (countRemoves ops s : Int)) ∧
    (m s = none → countAdds ops s = countRemoves ops s)

/-- Concrete balanced call history used to witness the manager invariant. -/
def mgrWitnessOps : List MgrOp :=
  [MgrOp.add 0, MgrOp.add 1, MgrOp.sweepCall]

/-! ## Emitter

`Emitter.subscribe` wraps the callback in a freshly allocated closure
`wrapped` and appends it; the returned unsubscribe function filters that
exact closure (by reference) out of the listener list.  Registrations are
modelled as (wrapper id, callback id) pairs, with a counter supplying the
fresh wrapper ids. -/

/-- Listener list of an `Emitter`, plus the allocator for fresh wrapper
ids. -/
structure EmitterSt where
  listeners : List (Nat × Nat)
  nextToken : Nat
  deriving Repr, DecidableEq

/-- The `Emitter.subscribe` method: append a fresh registration of `cb`
and return the new state together with the wrapper id the unsubscribe
closure captured. -/
def subscribeE (e : EmitterSt) (cb : Nat) : EmitterSt × Nat :=
  ({ listeners := e.listeners ++ [(e.nextToken, cb)],
     nextToken := e.nextToken + 1 },
   e.nextToken)

/-- The unsubscribe closure returned by `subscribe`: filter out the one
registration whose wrapper is `token`. -/
def unsubscribeE (e : EmitterSt) (token : Nat) : EmitterSt :=
  { e with listeners := e.listeners.filter (fun p => p.1 != token) }

/-- Every wrapper id in the listener list was allocated by the counter;
true of every emitter built by `subscribe` calls, since JS closure
allocation always yields an object distinct from all existing ones. -/
def WellFormedEmitter (e : EmitterSt) : Prop :=
  ∀ p ∈ e.listeners, p.1 < e.nextToken

/-! ## Store lemmas -/

/-- Dispatching while a transition is active only moves the head. -/
theorem dispatch_transition_store {S A : Type} [DecidableEq S]
    (f : S → A → S) (a : A) (st : StoreSt S) :
    (dispatch f a true st).store = ⟨f st.state a, st.committedState⟩ := rfl

/-- Whether or not a transition update is pending, a sync dispatch leaves
the head at the reduced head and the committed state at the reduced
committed state. -/
theorem dispatch_sync_store {S A : Type} [DecidableEq S] (f : S → A → S)
    (a : A) (st : StoreSt S) :
    (dispatch f a false st).store =
      ⟨f st.state a, f st.committedState a⟩ := by
  by_cases h : st.committedState = st.state <;>
    simp [dispatch, handleUpdateCore, h]

/-- Running only sync dispatches folds the reducer over both fields. -/
theorem runStore_immediates {S A : Type} [DecidableEq S] (f : S → A → S)
    (as : List A) :
    ∀ st : StoreSt S,
      runStore f st (as.map StoreEvent.immediate) =
        ⟨as.foldl f st.state, as.foldl f st.committedState⟩ := by
  induction as with
  | nil => intro st; rfl
  | cons a as ih =>
      intro st
      simp only [List.map_cons, runStore, dispatch_sync_store, ih,
        List.foldl_cons]

/-- Claim C1 (amended): when no transition is active and a transition
update is pending (head differs from committed), `dispatch`/`handleUpdate`
rebases: it saves the head projection as refreshed by this update (the
pending projection with the immediate action applied on top), sets
`committedState` to `reducer(committedState, action)`, notifies
synchronously with the head equal to that new committed value, then
restores the head to the saved refreshed projection and notifies again
inside a newly opened transition. -/
theorem store_rebase_protocol {S A : Type} [DecidableEq S] (f : S → A → S)
    (a : A) (st : StoreSt S) (h : st.state ≠ st.committedState) :
    (dispatch f a false st).store =
      ⟨f st.state a, f st.committedState a⟩ ∧
    (dispatch f a false st).notifies =
      [(⟨f st.committedState a, f st.committedState a⟩, false),
       (⟨f st.state a, f st.committedState a⟩, true)] ∧
    (dispatch f a false st).openedTransition = true := by
  have hne : st.committedState ≠ st.state := fun e => h e.symm
  simp [dispatch, handleUpdateCore, hne]

/-- Witness for `store_rebase_protocol` at reducer `s + 1`, head 1,
committed 0. -/
theorem store_rebase_protocol_witness :
    ((⟨1, 0⟩ : StoreSt Nat).state ≠ (⟨1, 0⟩ : StoreSt Nat).committedState) ∧
    ((dispatch (fun s (_ : Unit) => s + 1) () false
          (⟨1, 0⟩ : StoreSt Nat)).store = ⟨2, 1⟩ ∧
      (dispatch (fun s (_ : Unit) => s + 1) () false
          (⟨1, 0⟩ : StoreSt Nat)).notifies =
        [(⟨1, 1⟩, false), (⟨2, 1⟩, true)] ∧
      (dispatch (fun s (_ : Unit) => s + 1) () false
          (⟨1, 0⟩ : StoreSt Nat)).openedTransition = true) :=
  ⟨by decide,
    store_rebase_protocol (fun s (_ : Unit) => s + 1) () ⟨1, 0⟩ (by decide)⟩

/-- Claim C1 as stated is false: the head restored for the reopened
transition is not the pre-dispatch pending projection (here 1) but that
projection with the immediate action applied on top (here 2). -/
theorem store_rebase_pending_restore_counterexample :
    ((⟨1, 0⟩ : StoreSt Nat).state ≠ (⟨1, 0⟩ : StoreSt Nat).committedState) ∧
    (dispatch (fun s (_ : Unit) => s + 1) () false
        (⟨1, 0⟩ : StoreSt Nat)).store.state ≠
      (⟨1, 0⟩ : StoreSt Nat).state := by
  decide

/-- Claim C2 (amended): after a deferred action `d` dispatched from an
idle store and any run of immediate actions `as`, `committedState` is the
fold of the immediate actions alone (the unresolved deferred action
excluded) and `headState` is the fold of the full chronological history,
with the deferred action in its chronological position (the immediate
actions applied on top of the pending projection). -/
theorem store_fold_invariant {S A : Type} [DecidableEq S] (f : S → A → S)
    (c0 : S) (d : A) (as : List A) :
    (runStore f ⟨c0, c0⟩
        (StoreEvent.deferred d :: as.map StoreEvent.immediate)).committedState =
      as.foldl f c0 ∧
    (runStore f ⟨c0, c0⟩
        (StoreEvent.deferred d :: as.map StoreEvent.immediate)).state =
      as.foldl f (f c0 d) := by
  have h1 : (dispatch f d true (⟨c0, c0⟩ : StoreSt S)).store = ⟨f c0 d, c0⟩ :=
    rfl
  simp only [runStore, h1, runStore_immediates]
  exact ⟨trivial, trivial⟩

/-- Claim C2 as stated is false: with committed 2, unresolved deferred
DOUBLE and one immediate INCREMENT, the code's head is 5 while the
claimed fold-then-deferred-appended-last formula yields 6. -/
theorem store_head_append_last_counterexample :
    (runStore counterReducer ⟨2, 2⟩
        [StoreEvent.deferred CounterAction.double,
         StoreEvent.immediate CounterAction.increment]).state = 5 ∧
    specHeadAppendLast counterReducer 2 CounterAction.double
        [CounterAction.increment] = 6 ∧
    (runStore counterReducer ⟨2, 2⟩
        [StoreEvent.deferred CounterAction.double,
         StoreEvent.immediate CounterAction.increment]).state ≠
      specHeadAppendLast counterReducer 2 CounterAction.double
        [CounterAction.increment] := by
  decide

/-- Claim C3: with reducer DOUBLE→s*2, INCREMENT→s+1 and initial
committed state 2, a deferred DOUBLE left unresolved followed by an
immediate INCREMENT makes `committedState` 3 right away, and resolving the
deferred batch brings the final state to 5. -/
theorem store_rebase_worked_example :
    (runStore counterReducer ⟨2, 2⟩
        [StoreEvent.deferred CounterAction.double,
         StoreEvent.immediate CounterAction.increment]).committedState = 3 ∧
    (runStore counterReducer ⟨2, 2⟩
        [StoreEvent.deferred CounterAction.double,
         StoreEvent.immediate CounterAction.increment,
         StoreEvent.resolve]).state = 5 ∧
    (runStore counterReducer ⟨2, 2⟩
        [StoreEvent.deferred CounterAction.double,
         StoreEvent.immediate CounterAction.increment,
         StoreEvent.resolve]).committedState = 5 := by
  decide

/-- Claim C4: with no transition active and head equal to committed, a
dispatch sets both fields to the freshly reduced source state and notifies
exactly once, outside any transition, without opening one. -/
theorem store_sync_update_no_pending {S A : Type} [DecidableEq S]
    (f : S → A → S) (a : A) (st : StoreSt S)
    (h : st.state = st.committedState) :
    (dispatch f a false st).store = ⟨f st.state a, f st.state a⟩ ∧
    (dispatch f a false st).notifies =
      [(⟨f st.state a, f st.state a⟩, false)] ∧
    (dispatch f a false st).openedTransition = false := by
  have hd : st.committedState = st.state := h.symm
  simp [dispatch, handleUpdateCore, hd]

/-- Witness for `store_sync_update_no_pending` at reducer `s * 3` and an
idle store holding 4. -/
theorem store_sync_update_no_pending_witness :
    ((⟨4, 4⟩ : StoreSt Nat).state = (⟨4, 4⟩ : StoreSt Nat).committedState) ∧
    ((dispatch (fun s (_ : Unit) => s * 3) () false
          (⟨4, 4⟩ : StoreSt Nat)).store = ⟨12, 12⟩ ∧
      (dispatch (fun s (_ : Unit) => s * 3) () false
          (⟨4, 4⟩ : StoreSt Nat)).notifies = [(⟨12, 12⟩, false)] ∧
      (dispatch (fun s (_ : Unit) => s * 3) () false
          (⟨4, 4⟩ : StoreSt Nat)).openedTransition = false) :=
  ⟨rfl,
    store_sync_update_no_pending (fun s (_ : Unit) => s * 3) () ⟨4, 4⟩ rfl⟩

/-- Claim C5: a dispatch while a transition is active moves the head to
the freshly reduced source state, notifies (once, inside the transition),
and leaves `committedState` unchanged. -/
theorem store_transition_update {S A : Type} [DecidableEq S]
    (f : S → A → S) (a : A) (st : StoreSt S) :
    (dispatch f a true st).store = ⟨f st.state a, st.committedState⟩ ∧
    (dispatch f a true st).notifies =
      [(⟨f st.state a, st.committedState⟩, true)] ∧
    (dispatch f a true st).openedTransition = false :=
  ⟨rfl, rfl, rfl⟩

/-- Claim C6: a mounting reader's initial value is the selector applied to
the head state of the store it rendered with, and the pre-paint layout
fixup leaves the selector applied to the committed state visible at paint,
whatever was shown and however the store changed between render and layout
effect. -/
theorem reader_mount_visible_committed {S T : Type} [DecidableEq T]
    (mountSt layoutSt : StoreSt S) (selector : S → T) :
    initialReaderValue mountSt selector = selector mountSt.state ∧
    (mountFixup (initialReaderValue mountSt selector) layoutSt selector).1 =
      selector layoutSt.committedState := by
  refine ⟨rfl, ?_⟩
  by_cases h :
      initialReaderValue mountSt selector = selector layoutSt.committedState <;>
    simp [mountFixup, h]

/-! ## StoreManager lemmas -/

/-- Running an appended history runs the two parts in sequence. -/
theorem runMgr_append (l l2 : List MgrOp) :
    ∀ m0 : MgrSt,
      runMgr m0 (l ++ l2) = (runMgr m0 l).bind (fun m1 => runMgr m1 l2) := by
  induction l with
  | nil => intro m0; simp [runMgr]
  | cons op rest ih =>
      intro m0
      cases hstep : stepMgr m0 op with
      | none => simp [runMgr, hstep]
      | some m1 => simp [runMgr, hstep, ih]

/-- A singleton history is a single call. -/
theorem runMgr_singleton (m0 : MgrSt) (op : MgrOp) :
    runMgr m0 [op] = stepMgr m0 op := by
  cases hstep : stepMgr m0 op <;> simp [runMgr, hstep]

/-- A successful run decomposes across a final appended call. -/
theorem runMgr_snoc (l : List MgrOp) (op : MgrOp) (m0 m : MgrSt)
    (h : runMgr m0 (l ++ [op]) = some m) :
    ∃ m1, runMgr m0 l = some m1 ∧ stepMgr m1 op = some m := by
  rw [runMgr_append] at h
  cases hl : runMgr m0 l with
  | none => rw [hl] at h; simp at h
  | some m1 =>
      rw [hl] at h
      simp only [Option.some_bind] at h
      exact ⟨m1, rfl, by rwa [runMgr_singleton] at h⟩

/-- Add counts across a final `addStore` call. -/
theorem countAdds_snoc_add (l : List MgrOp) (t s : Nat) :
    countAdds (l ++ [MgrOp.add t]) s =
      countAdds l s + (if t = s then 1 else 0) := by
  by_cases h : t = s <;>
    simp [countAdds, List.countP_append, List.countP_cons, isAddOf, h]

/-- Remove counts are unaffected by a final `addStore` call. -/
theorem countRemoves_snoc_add (l : List MgrOp) (t s : Nat) :
    countRemoves (l ++ [MgrOp.add t]) s = countRemoves l s := by
  simp [countRemoves, List.countP_append, List.countP_cons, isRemoveOf]

/-- Add counts are unaffected by a final `removeStore` call. -/
theorem countAdds_snoc_remove (l : List MgrOp) (t s : Nat) :
    countAdds (l ++ [MgrOp.remove t]) s = countAdds l s := by
  simp [countAdds, List.countP_append, List.countP_cons, isAddOf]

/-- Remove counts across a final `removeStore` call. -/
theorem countRemoves_snoc_remove (l : List MgrOp) (t s : Nat) :
    countRemoves (l ++ [MgrOp.remove t]) s =
      countRemoves l s + (if t = s then 1 else 0) := by
  by_cases h : t = s <;>
    simp [countRemoves, List.countP_append, List.countP_cons, isRemoveOf, h]

/-- Neither count is affected by a final `sweep` call. -/
theorem countAdds_snoc_sweep (l : List MgrOp) (s : Nat) :
    countAdds (l ++ [MgrOp.sweepCall]) s = countAdds l s := by
  simp [countAdds, List.countP_append, List.countP_cons, isAddOf]

/-- Remove counts are unaffected by a final `sweep` call. -/
theorem countRemoves_snoc_sweep (l : List MgrOp) (s : Nat) :
    countRemoves (l ++ [MgrOp.sweepCall]) s = countRemoves l s := by
  simp [countRemoves, List.countP_append, List.countP_cons, isRemoveOf]

/-- Add counts are unaffected by a final `commitAllStates` call. -/
theorem countAdds_snoc_commit (l : List MgrOp) (s : Nat) :
    countAdds (l ++ [MgrOp.commitAll]) s = countAdds l s := by
  simp [countAdds, List.countP_append, List.countP_cons, isAddOf]

/-- Remove counts are unaffected by a final `commitAllStates` call. -/
theorem countRemoves_snoc_commit (l : List MgrOp) (s : Nat) :
    countRemoves (l ++ [MgrOp.commitAll]) s = countRemoves l s := by
  simp [countRemoves, List.countP_append, List.countP_cons, isRemoveOf]

/-- A prefix of a balanced history is balanced. -/
theorem balanced_prefix (l : List MgrOp) (op : MgrOp)
    (h : Balanced (l ++ [op])) : Balanced l := by
  intro n s
  rcases le_total n l.length with hle | hge
  · have h1 := h n s
    rw [List.take_append_eq_append_take, Nat.sub_eq_zero_of_le hle] at h1
    simpa using h1
  · have h1 := h l.length s
    rw [List.take_append_eq_append_take, Nat.sub_self] at h1
    simp only [List.take_length, List.take_zero, List.append_nil] at h1
    rw [List.take_of_length_le hge]
    exact h1

/-- Pointwise description of `addStore`. -/
theorem addStore_apply (m : MgrSt) (t s : Nat) :
    addStore m t s = if s = t then some ((m t).getD 0 + 1) else m s := by
  cases h : m t <;> simp [addStore, h]

/-- A successful `removeStore` found an entry and only decremented it. -/
theorem removeStore_some (m : MgrSt) (t : Nat) (m2 : MgrSt)
    (h : removeStore m t = some m2) :
    ∃ c, m t = some c ∧
      m2 = fun s => if s = t then some (c - 1) else m s := by
  cases hm : m t with
  | none => simp [removeStore, removeStoreEx, hm] at h
  | some c =>
      simp only [removeStore, removeStoreEx, hm, Option.some.injEq] at h
      exact ⟨c, rfl, h.symm⟩

/-- Sweeping leaves an untracked store untracked. -/
theorem sweepMgr_apply_none (m : MgrSt) (s : Nat) (h : m s = none) :
    sweepMgr m s = none := by
  simp [sweepMgr, h]

/-- Sweeping keeps a tracked entry exactly when its count is at least 1. -/
theorem sweepMgr_apply_some (m : MgrSt) (s : Nat) (c : Int)
    (h : m s = some c) :
    sweepMgr m s = if 1 ≤ c then some c else none := by
  simp [sweepMgr, h]

/-- An entry exists after `addStore t` iff it is the added store or an
entry already existed. -/
theorem hasEntry_addStore (m : MgrSt) (t s : Nat) :
    hasEntry (addStore m t) s = true ↔ (s = t ∨ hasEntry m s = true) := by
  by_cases hs : s = t <;> simp [hasEntry, addStore_apply, hs]

/-- A successful `removeStore` never deletes any entry. -/
theorem hasEntry_removeStore (m m2 : MgrSt) (t s : Nat)
    (h : removeStore m t = some m2) : hasEntry m2 s = hasEntry m s := by
  rcases removeStore_some m t m2 h with ⟨c, hc, rfl⟩
  by_cases hs : s = t <;> simp [hasEntry, hs, hc]

/-- An entry survives a sweep iff it existed with count at least 1. -/
theorem hasEntry_sweepMgr (m : MgrSt) (s : Nat) :
    hasEntry (sweepMgr m) s = true ↔
      (hasEntry m s = true ∧ 1 ≤ countOf m s) := by
  cases h : m s with
  | none => simp [hasEntry, sweepMgr_apply_none m s h, h, countOf]
  | some c =>
      by_cases hc : (1 : Int) ≤ c <;>
        simp [hasEntry, sweepMgr_apply_some m s c h, h, countOf, hc]

/-- Sweeping preserves the count bookkeeping, provided no store has seen
more removes than adds (a negative entry would be deleted without its
counts cancelling). -/
theorem mgrCounts_sweepMgr (l : List MgrOp) (m1 : MgrSt)
    (hinv : MgrCounts l m1)
    (hfull : ∀ s, countRemoves l s ≤ countAdds l s) :
    MgrCounts l (sweepMgr m1) := by
  intro s
  constructor
  · intro c hc
    cases hmt : m1 s with
    | none => rw [sweepMgr_apply_none m1 s hmt] at hc; exact absurd hc (by simp)
    | some c0 =>
        rw [sweepMgr_apply_some m1 s c0 hmt] at hc
        by_cases h1 : (1 : Int) ≤ c0
        · rw [if_pos h1] at hc
          injection hc with hc
          subst hc
          exact (hinv s).1 c0 hmt
        · rw [if_neg h1] at hc
          exact absurd hc (by simp)
  · intro hnone
    cases hmt : m1 s with
    | none => exact (hinv s).2 hmt
    | some c0 =>
        rw [sweepMgr_apply_some m1 s c0 hmt] at hnone
        by_cases h1 : (1 : Int) ≤ c0
        · rw [if_pos h1] at hnone; exact absurd hnone (by simp)
        · have hc0 := (hinv s).1 c0 hmt
          have hf := hfull s
          omega

/-- Every state reached by a balanced, non-throwing call history satisfies
the count bookkeeping invariant. -/
theorem mgrCounts_run (ops : List MgrOp) :
    ∀ m : MgrSt, Balanced ops → runMgr emptyMgr ops = some m →
      MgrCounts ops m := by
  induction ops using List.reverseRecOn with
  | nil =>
      intro m _ hrun s
      have hm : emptyMgr = m := by simpa [runMgr] using hrun
      subst hm
      exact ⟨fun c hc => by simp [emptyMgr] at hc,
        fun _ => by simp [countAdds, countRemoves]⟩
  | append_singleton l op ih =>
      intro m hbal hrun
      have hbl : Balanced l := balanced_prefix l op hbal
      rcases runMgr_snoc l op emptyMgr m hrun with ⟨m1, hm1, hstep⟩
      have hinv := ih m1 hbl hm1
      have hfull : ∀ s, countRemoves l s ≤ countAdds l s := by
        intro s
        have h1 := hbl l.length s
        simpa [List.take_length] using h1
      cases op with
      | add t =>
          simp only [stepMgr, Option.some.injEq] at hstep
          subst hstep
          intro s
          constructor
          · intro c hc
            rw [addStore_apply] at hc
            rw [countAdds_snoc_add, countRemoves_snoc_add]
            by_cases hs : s = t
            · subst hs
              rw [if_pos rfl] at hc
              rw [if_pos rfl]
              cases hmt : m1 s with
              | none =>
                  rw [hmt] at hc
                  have h0 := (hinv s).2 hmt
                  simp only [Option.getD_none, Option.some.injEq] at hc
                  omega
              | some c0 =>
                  rw [hmt] at hc
                  have h0 := (hinv s).1 c0 hmt
                  simp only [Option.getD_some, Option.some.injEq] at hc
                  omega
            · rw [if_neg hs] at hc
              rw [if_neg (fun e => hs e.symm)]
              have h0 := (hinv s).1 c hc
              omega
          · intro hnone
            rw [addStore_apply] at hnone
            by_cases hs : s = t
            · rw [if_pos hs] at hnone; exact absurd hnone (by simp)
            · rw [if_neg hs] at hnone
              have h0 := (hinv s).2 hnone
              rw [countAdds_snoc_add, countRemoves_snoc_add,
                if_neg (fun e => hs e.symm)]
              omega
      | remove t =>
          simp only [stepMgr] at hstep
          rcases removeStore_some m1 t m hstep with ⟨c0, hc0, rfl⟩
          have h0 := (hinv t).1 c0 hc0
          intro s
          constructor
          · intro c hc
            replace hc : (if s = t then some (c0 - 1) else m1 s) = some c := hc
            rw [countAdds_snoc_remove, countRemoves_snoc_remove]
            by_cases hs : s = t
            · subst hs
              rw [if_pos rfl] at hc
              injection hc with hc
              rw [if_pos rfl]
              omega
            · rw [if_neg hs] at hc
              have h1 := (hinv s).1 c hc
              rw [if_neg (fun e => hs e.symm)]
              omega
          · intro hnone
            replace hnone : (if s = t then some (c0 - 1) else m1 s) = none :=
              hnone
            by_cases hs : s = t
            · rw [if_pos hs] at hnone; exact absurd hnone (by simp)
            · rw [if_neg hs] at hnone
              have h1 := (hinv s).2 hnone
              rw [countAdds_snoc_remove, countRemoves_snoc_remove,
                if_neg (fun e => hs e.symm)]
              omega
      | sweepCall =>
          simp only [stepMgr, Option.some.injEq] at hstep
          subst hstep
          have hres := mgrCounts_sweepMgr l m1 hinv hfull
          intro s
          simp only [countAdds_snoc_sweep, countRemoves_snoc_sweep]
          exact hres s
      | commitAll =>
          simp only [stepMgr, commitAllStates, Option.some.injEq] at hstep
          subst hstep
          have hres := mgrCounts_sweepMgr l m1 hinv hfull
          intro s
          simp only [countAdds_snoc_commit, countRemoves_snoc_commit]
          exact hres s

/-- Propositional shape of the presence induction step for an `addStore`
call. -/
theorem glue_add (A B C D G : Prop) (hg : G) :
    (B ∨ ((D ∨ C) ∧ A)) ↔ (((D ∧ A) ∨ B) ∨ (C ∧ G ∧ A)) := by
  tauto

/-- Propositional shape of the presence induction step for a call that
touches neither presence nor counts of the store at hand. -/
theorem glue_other (A B C G : Prop) (hg : G) :
    (B ∨ (C ∧ A)) ↔ (((False ∧ A) ∨ B) ∨ (C ∧ G ∧ A)) := by
  tauto

/-- Propositional shape of the presence induction step for a sweep. -/
theorem glue_sweep (A B C P G : Prop) (hg : G ↔ P) :
    (B ∨ ((C ∧ P) ∧ A)) ↔ (((False ∧ A) ∨ B) ∨ (C ∧ G ∧ A)) := by
  rw [hg]; tauto

/-- An entry exists after running a call history exactly when either some
`addStore` call in it targeted the store and the entry survived every
later sweep, or the entry already existed at the start and survived every
sweep of the history. -/
theorem presence_aux (ops : List MgrOp) :
    ∀ m0 m : MgrSt, runMgr m0 ops = some m → ∀ s,
      (hasEntry m s = true ↔
        (mountedNotSwept m0 ops s ∨
          (hasEntry m0 s = true ∧ survivesSweeps m0 ops s))) := by
  induction ops with
  | nil =>
      intro m0 m hrun s
      have hm : m0 = m := by simpa [runMgr] using hrun
      subst hm
      simp [mountedNotSwept, survivesSweeps]
  | cons op rest ih =>
      intro m0 m hrun s
      cases hstep : stepMgr m0 op with
      | none => simp [runMgr, hstep] at hrun
      | some m1 =>
          have hrun1 : runMgr m1 rest = some m := by
            simpa [runMgr, hstep] using hrun
          have ihm := ih m1 m hrun1 s
          have hmns : mountedNotSwept m0 (op :: rest) s ↔
              ((op = MgrOp.add s ∧ survivesSweeps m1 rest s) ∨
                mountedNotSwept m1 rest s) := by
            simp [mountedNotSwept, hstep]
          have hss : survivesSweeps m0 (op :: rest) s ↔
              (sweepGuard op m0 s ∧ survivesSweeps m1 rest s) := by
            simp [survivesSweeps, hstep]
          rw [ihm, hmns, hss]
          cases op with
          | add t =>
              have hm1 : m1 = addStore m0 t := by
                have h0 : some (addStore m0 t) = some m1 := hstep
                exact (Option.some.injEq _ _ ▸ h0).symm
              have h1 : hasEntry m1 s = true ↔ (s = t ∨ hasEntry m0 s = true) := by
                rw [hm1]; exact hasEntry_addStore m0 t s
              have h2 : (MgrOp.add t = MgrOp.add s) ↔ s = t := by
                simp [eq_comm]
              rw [h1, h2]
              exact glue_add _ _ _ _ _ trivial
          | remove t =>
              have hrm : removeStore m0 t = some m1 := hstep
              have h1 : hasEntry m1 s = hasEntry m0 s :=
                hasEntry_removeStore m0 m1 t s hrm
              have h2 : (MgrOp.remove t = MgrOp.add s) ↔ False := by simp
              rw [h1, h2]
              exact glue_other _ _ _ _ trivial
          | sweepCall =>
              have hm1 : m1 = sweepMgr m0 := by
                have h0 : some (sweepMgr m0) = some m1 := hstep
                exact (Option.some.injEq _ _ ▸ h0).symm
              have h1 : hasEntry m1 s = true ↔
                  (hasEntry m0 s = true ∧ 1 ≤ countOf m0 s) := by
                rw [hm1]; exact hasEntry_sweepMgr m0 s
              have h2 : (MgrOp.sweepCall = MgrOp.add s) ↔ False := by simp
              rw [h1, h2]
              exact glue_sweep _ _ _ _ _ Iff.rfl
          | commitAll =>
              have hm1 : m1 = sweepMgr m0 := by
                have h0 : some (sweepMgr m0) = some m1 := hstep
                exact (Option.some.injEq _ _ ▸ h0).symm
              have h1 : hasEntry m1 s = true ↔
                  (hasEntry m0 s = true ∧ 1 ≤ countOf m0 s) := by
                rw [hm1]; exact hasEntry_sweepMgr m0 s
              have h2 : (MgrOp.commitAll = MgrOp.add s) ↔ False := by simp
              rw [h1, h2]
              exact glue_sweep _ _ _ _ _ Iff.rfl

/-- Claim C7: in every manager state reached by a balanced, non-throwing
call history, every tracked refcount is non-negative, and an entry exists
for a store iff some reader mounted it (an `addStore` call occurred) and
the entry has not since been removed by a sweep. -/
theorem manager_refcount_invariant (ops : List MgrOp) (m : MgrSt)
    (hbal : Balanced ops) (hrun : runMgr emptyMgr ops = some m) :
    (∀ s c, m s = some c → 0 ≤ c) ∧
    (∀ s, hasEntry m s = true ↔ mountedNotSwept emptyMgr ops s) := by
  have hinv := mgrCounts_run ops m hbal hrun
  constructor
  · intro s c hc
    have h1 := (hinv s).1 c hc
    have h2 : countRemoves ops s ≤ countAdds ops s := by
      have h3 := hbal ops.length s
      simpa [List.take_length] using h3
    omega
  · intro s
    have h := presence_aux ops emptyMgr m hrun s
    simpa [hasEntry, emptyMgr] using h

/-- Witness for `manager_refcount_invariant` on the balanced history
mounting stores 0 and 1 and then sweeping. -/
theorem manager_refcount_invariant_witness :
    Balanced mgrWitnessOps ∧
    ∃ m, runMgr emptyMgr mgrWitnessOps = some m ∧
      ((∀ s c, m s = some c → 0 ≤ c) ∧
        (∀ s, hasEntry m s = true ↔
          mountedNotSwept emptyMgr mgrWitnessOps s)) := by
  have hbal : Balanced mgrWitnessOps := by
    intro n s
    rcases n with _ | _ | _ | n <;>
      simp [mgrWitnessOps, countRemoves, countAdds, isRemoveOf, isAddOf,
        List.countP_cons, List.countP_nil, List.take_succ_cons, List.take_nil,
        List.take_zero]
  exact ⟨hbal, sweepMgr (addStore (addStore emptyMgr 0) 1), rfl,
    manager_refcount_invariant mgrWitnessOps _ hbal rfl⟩

/-- Claim C8: `removeStore` on a store with no tracked entry throws the
refcount-imbalance error, and the tracking map is untouched by the failed
call (the throw precedes any mutation). -/
theorem removeStore_untracked_throws (m : MgrSt) (s : Nat)
    (h : m s = none) :
    removeStoreEx m s = (m, some imbalanceMessage) := by
  simp [removeStoreEx, h]

/-- Witness for `removeStore_untracked_throws` on the empty manager. -/
theorem removeStore_untracked_throws_witness :
    emptyMgr 0 = none ∧
    removeStoreEx emptyMgr 0 = (emptyMgr, some imbalanceMessage) :=
  ⟨rfl, removeStore_untracked_throws emptyMgr 0 rfl⟩

/-- Claim C9: passing a store or a selector whose identity differs from
the one captured at mount makes `useStoreSelector` throw a descriptive
error synchronously (the guard returns an error, never a value read from
the new target). -/
theorem reader_identity_guard_throws
    (mountedStore passedStore mountedSelector passedSelector : Nat)
    (h : passedStore ≠ mountedStore ∨ passedSelector ≠ mountedSelector) :
    ∃ msg, useStoreSelectorGuard mountedStore passedStore mountedSelector
        passedSelector = Except.error msg := by
  by_cases hs : passedStore = mountedStore
  · rcases h with h | h
    · exact absurd hs h
    · exact ⟨dynamicSelectorMessage, by simp [useStoreSelectorGuard, hs, h]⟩
  · exact ⟨dynamicStoreMessage, by simp [useStoreSelectorGuard, hs]⟩

/-- Witness for `reader_identity_guard_throws`: store id 1 passed to a
reader mounted against store id 0. -/
theorem reader_identity_guard_throws_witness :
    ((1 : Nat) ≠ (0 : Nat) ∨ (0 : Nat) ≠ (0 : Nat)) ∧
    ∃ msg, useStoreSelectorGuard 0 1 0 0 = Except.error msg :=
  ⟨Or.inl (by decide),
    reader_identity_guard_throws 0 1 0 0 (Or.inl (by decide))⟩

/-- Claim C10: the unsubscribe function returned by `Emitter.subscribe`
removes exactly the registration it created, leaving every other
registration (other registrations of the same callback included) in its
original order, and running it a second time changes nothing. -/
theorem emitter_unsubscribe_exact (e : EmitterSt) (cb : Nat)
    (hwf : WellFormedEmitter e) :
    (unsubscribeE (subscribeE e cb).1 (subscribeE e cb).2).listeners =
      e.listeners ∧
    unsubscribeE (unsubscribeE (subscribeE e cb).1 (subscribeE e cb).2)
        (subscribeE e cb).2 =
      unsubscribeE (subscribeE e cb).1 (subscribeE e cb).2 := by
  have hall : ∀ p ∈ e.listeners, (p.1 != e.nextToken) = true := by
    intro p hp
    have hlt := hwf p hp
    simpa [bne_iff_ne] using Nat.ne_of_lt hlt
  constructor
  · simp [subscribeE, unsubscribeE, List.filter_append,
      List.filter_eq_self.mpr hall]
  · have hidem : ∀ l : List (Nat × Nat),
        List.filter (fun p => p.1 != e.nextToken)
            (List.filter (fun p => p.1 != e.nextToken) l) =
          List.filter (fun p => p.1 != e.nextToken) l :=
      fun l => List.filter_eq_self.mpr (fun a ha => (List.mem_filter.mp ha).2)
    simp [subscribeE, unsubscribeE, hidem]

/-- Witness for `emitter_unsubscribe_exact`: an emitter already holding a
registration of callback 7, to which 7 is subscribed a second time. -/
theorem emitter_unsubscribe_exact_witness :
    WellFormedEmitter ⟨[(0, 7)], 1⟩ ∧
    ((unsubscribeE (subscribeE ⟨[(0, 7)], 1⟩ 7).1
          (subscribeE ⟨[(0, 7)], 1⟩ 7).2).listeners = [(0, 7)] ∧
      unsubscribeE
          (unsubscribeE (subscribeE ⟨[(0, 7)], 1⟩ 7).1
            (subscribeE ⟨[(0, 7)], 1⟩ 7).2)
          (subscribeE ⟨[(0, 7)], 1⟩ 7).2 =
        unsubscribeE (subscribeE ⟨[(0, 7)], 1⟩ 7).1
          (subscribeE ⟨[(0, 7)], 1⟩ 7).2) :=
  ⟨fun p hp => by rcases List.mem_singleton.mp hp with rfl; decide,
    emitter_unsubscribe_exact ⟨[(0, 7)], 1⟩ 7
      (fun p hp => by rcases List.mem_singleton.mp hp with rfl; decide)⟩

end RCStore
